import Mathlib

/-!
Verification development for the frsm 2D scan matcher
(`src/libfrsm/ScanMatcher.hpp`).

The repository ships only the class header; every member function body is
absent.  Following the header's documentation and the design specification,
the operations are modelled here as pure Lean functions: machine doubles
become rationals, the occupancy-raster collaborator becomes an abstract
per-cell scoring function, and the rigid-body projection of laser points
becomes an abstract projection function (its trigonometry is outside the
core being specified).  Each definition's doc comment records what it is
modelled from.
-/

namespace Frsm

/-- Modelled from the spec: 2-D laser point (`frsmPoint`), a plain pair of
coordinates.  Doubles are modelled as rationals. -/
structure frsmPoint where
  x : ℚ
  y : ℚ
deriving DecidableEq

/-- Modelled from the spec: rigid-body pose `(x, y, theta)` together with the
scalar `score` field that doubles as a match-quality output and as the
standard deviation of a Gaussian prior on input (informative when at least
`0.1`). -/
structure ScanTransform where
  x : ℚ
  y : ℚ
  theta : ℚ
  score : ℚ
deriving DecidableEq

/-- Modelled from the spec: the laser-type tag carried by a scan.  Its
concrete enumerators live in the absent `Scan.hpp`; only its identity as a
tag matters here. -/
inductive frsm_laser_type_t where
  | FRSM_HOKUYO_UTM
  | FRSM_SICK_LMS
  | FRSM_DUMMY_LASER
deriving DecidableEq

/-- Modelled from the spec: a `Scan` bundles an immutable point list, the
transform used to project it into the map frame, a sensor-type tag and a
timestamp. -/
structure Scan where
  points : List frsmPoint
  T : ScanTransform
  laser_type : frsm_laser_type_t
  utime : Int
deriving DecidableEq

/-- Modelled from the spec: an occupancy raster is a snapshot derived
deterministically from a scan-window snapshot at a given resolution; its
pixel internals belong to the external `RasterLookupTable` collaborator and
are out of scope, so the raster is represented by the data it was built
from. -/
structure Raster where
  sourceScans : List Scan
  resolution : ℚ
deriving DecidableEq

/-- Modelled from the spec: deterministic raster construction from a frozen
window snapshot (`build(scans, resolution) -> Raster` collaborator
contract). -/
def buildRaster (scans : List Scan) (res : ℚ) : Raster :=
  ⟨scans, res⟩

/-!
## Sliding scan window

`ScanMatcher::addScan` appends the new scan to `scans` and, per the spec's
window invariant, evicts the oldest entry once the size bound
`maxNumScans` is exceeded.
-/

/-- Modelled from the spec: the window update performed by `addScan` —
append the scan, then evict the oldest entry (the list head) if the bound
`maxN` is now exceeded (FIFO sliding window). -/
def windowAdd (maxN : Nat) (w : List Scan) (s : Scan) : List Scan :=
  if maxN < (w ++ [s]).length then (w ++ [s]).tail else w ++ [s]

/-!
## Grid search

`gridMatch` exhaustively evaluates an (x, y, theta) lattice inside the
search window.  A lattice candidate is represented by its integer offsets
from the window center; the physical offset is the candidate index times
the corresponding resolution.
-/

/-- A lattice candidate of the grid search: integer step offsets from the
window center along x, y and theta. -/
structure Cand where
  ix : Int
  iy : Int
  it : Int
deriving DecidableEq

/-- The integers from `lo` to `hi` inclusive, in increasing order. -/
def intRange (lo hi : Int) : List Int :=
  (List.range (hi - lo + 1).toNat).map fun i : Nat => lo + (i : Int)

/-- All lattice candidates in the box
`[xlo, xhi] x [ylo, yhi] x [tlo, thi]`. -/
def candsBox (xlo xhi ylo yhi tlo thi : Int) : List Cand :=
  (intRange xlo xhi).flatMap fun ix =>
    (intRange ylo yhi).flatMap fun iy =>
      (intRange tlo thi).map fun it => ⟨ix, iy, it⟩

/-- Strict preference between candidates: `c` beats `b` when its score is
strictly higher, or the scores tie and `c` is strictly closer to the window
center (the spec's tie-break). -/
def betterP (f d : Cand → ℚ) (c b : Cand) : Prop :=
  f b < f c ∨ (f c = f b ∧ d c < d b)

/-- Boolean form of `betterP`, used by the executable search. -/
def betterB (f d : Cand → ℚ) (c b : Cand) : Bool :=
  decide (f b < f c) || (decide (f c = f b) && decide (d c < d b))

/-- Fold selecting the search winner: keep the incumbent unless a later
candidate is strictly better under `betterB` (higher score, or equal score
and closer to the window center). -/
def pickBest (f d : Cand → ℚ) : List Cand → Cand → Cand
  | [], b => b
  | c :: rest, b => pickBest f d rest (if betterB f d c b then c else b)

/-!
## Scoring and the two search resolutions

The occupancy raster and the rigid-body projection are external
collaborators (`RasterLookupTable`, trigonometry); they enter the model as
abstract functions `cell` (cost of a map-frame location) and `proj`
(projection of a body-frame point by a pose).
-/

/-- Modelled from the spec: the raster collaborator's correlation score of a
point set at a candidate pose `(px, py, pt)` — every point is projected
into the map frame and its cell cost looked up; the per-point costs are
summed. -/
def rasterScore (cell : frsmPoint → ℚ) (proj : ℚ → ℚ → ℚ → frsmPoint → frsmPoint)
    (points : List frsmPoint) (px py pt : ℚ) : ℚ :=
  (points.map fun p => cell (proj px py pt p)).sum

/-- Squared distance, in pose units, of a lattice candidate from the window
center; `rx` is the xy lattice spacing (the map resolution) and `rt` the
angular spacing. -/
def candDist (rx rt : ℚ) (c : Cand) : ℚ :=
  ((c.ix : ℚ) * rx) ^ 2 + ((c.iy : ℚ) * rx) ^ 2 + ((c.it : ℚ) * rt) ^ 2

/-- Modelled from the spec: the prior-adjusted score of a lattice candidate.
The window is centered at the prior `c0`.  When the prior is informative —
its `score` field, a standard deviation, is at least `0.1` — the raw
correlation score is combined with a Gaussian log-likelihood penalty
proportional to the squared distance from the prior; below the threshold
the raw score is used unchanged. -/
def gridEval (cell : frsmPoint → ℚ) (proj : ℚ → ℚ → ℚ → frsmPoint → frsmPoint)
    (points : List frsmPoint) (c0 : ScanTransform) (rx rt : ℚ) (c : Cand) : ℚ :=
  rasterScore cell proj points (c0.x + (c.ix : ℚ) * rx) (c0.y + (c.iy : ℚ) * rx)
      (c0.theta + (c.it : ℚ) * rt) -
    (if 1 / 10 ≤ c0.score then candDist rx rt c / (2 * c0.score ^ 2) else 0)

/-- Modelled from the spec: the single-resolution exhaustive grid search —
every lattice candidate in the symmetric window of `nx`, `ny`, `nt` steps is
evaluated under `f` and the winner picked with the score/center
tie-break `d`. -/
def gridBestSingle (f d : Cand → ℚ) (nx ny nt : Nat) : Cand :=
  pickBest f d
    (candsBox (-(nx : Int)) (nx : Int) (-(ny : Int)) (ny : Int) (-(nt : Int)) (nt : Int))
    ⟨0, 0, 0⟩

/-- Number of coarse lattice steps covering `n` fine steps at downsampling
factor `dsf` (ceiling division). -/
def coarseSteps (dsf n : Nat) : Nat :=
  (n + dsf - 1) / dsf

/-- Modelled from the spec: the coarse candidates of the multi-resolution
search — x and y offsets advance in strides of the downsample factor and
cover the full requested window; theta stays at full resolution (the raster
downsampling is spatial). -/
def coarseCands (dsf nx ny nt : Nat) : List Cand :=
  (intRange (-(coarseSteps dsf nx : Int)) (coarseSteps dsf nx : Int)).flatMap fun jx =>
    (intRange (-(coarseSteps dsf ny : Int)) (coarseSteps dsf ny : Int)).flatMap fun jy =>
      (intRange (-(nt : Int)) (nt : Int)).map fun jt =>
        ⟨jx * (dsf : Int), jy * (dsf : Int), jt⟩

/-- Clamp an integer offset into the symmetric window of `n` steps. -/
def clampI (n : Nat) (v : Int) : Int :=
  max (-(n : Int)) (min (n : Int) v)

/-- Modelled from the spec: the multi-resolution grid search — a coarse pass
over the full window against the low-resolution raster localizes a best
region, then the full-resolution search is re-run restricted to the window
of one coarse stride around the (window-clamped) coarse optimum. -/
def gridBestMulti (fLo fHi d : Cand → ℚ) (nx ny nt dsf : Nat) : Cand :=
  let bc := pickBest fLo d (coarseCands dsf nx ny nt) ⟨0, 0, 0⟩
  pickBest fHi d
    (candsBox (max (-(nx : Int)) (bc.ix - (dsf : Int))) (min (nx : Int) (bc.ix + (dsf : Int)))
      (max (-(ny : Int)) (bc.iy - (dsf : Int))) (min (ny : Int) (bc.iy + (dsf : Int)))
      (-(nt : Int)) (nt : Int))
    ⟨clampI nx bc.ix, clampI ny bc.iy, clampI nt bc.it⟩

/-- The identity pose with zero confidence, used when no prior is given. -/
def identityTransform : ScanTransform :=
  ⟨0, 0, 0, 0⟩

/-- The winning lattice candidate of `gridMatch`: the multi-resolution
pipeline when enabled, else the exhaustive single-resolution search. -/
def gridBestCand (useMR : Bool) (dsf : Nat) (fHi fLo d : Cand → ℚ)
    (nx ny nt : Nat) : Cand :=
  if useMR then gridBestMulti fLo fHi d nx ny nt dsf else gridBestSingle fHi d nx ny nt

/-- Result of `gridMatch`: the best transform plus the per-axis saturation
flags (whether the winner lies on the outer boundary of the search
window). -/
structure GridResult where
  trans : ScanTransform
  xSat : Bool
  ySat : Bool
  thetaSat : Bool
deriving DecidableEq

/-- Modelled from the spec: `ScanMatcher::gridMatch`.  The search window is
centered at the prior pose (identity when `prior` is absent), spans
`nx`/`ny`/`nt` lattice steps per side at spacings `rx` (xy) and `rt`
(theta), and is searched exhaustively (single resolution) or
coarse-to-fine (multi-resolution).  The returned transform carries the
winning candidate's prior-adjusted score; each saturation flag reports
whether the winner sits on the window boundary along that axis. -/
def gridMatch (useMR : Bool) (dsf : Nat) (cellHi cellLo : frsmPoint → ℚ)
    (proj : ℚ → ℚ → ℚ → frsmPoint → frsmPoint) (points : List frsmPoint)
    (prior : Option ScanTransform) (rx rt : ℚ) (nx ny nt : Nat) : GridResult :=
  let c0 := prior.getD identityTransform
  let b := gridBestCand useMR dsf (gridEval cellHi proj points c0 rx rt)
    (gridEval cellLo proj points c0 rx rt) (candDist rx rt) nx ny nt
  { trans := ⟨c0.x + (b.ix : ℚ) * rx, c0.y + (b.iy : ℚ) * rx, c0.theta + (b.it : ℚ) * rt,
      gridEval cellHi proj points c0 rx rt b⟩
    xSat := decide (b.ix.natAbs = nx)
    ySat := decide (b.iy.natAbs = ny)
    thetaSat := decide (b.it.natAbs = nt) }

/-- Constant unit cell cost used by the C2 counterexample. -/
def degenCell : frsmPoint → ℚ := fun _ => 1

/-- Identity projection used by the C2 counterexample. -/
def degenProj : ℚ → ℚ → ℚ → frsmPoint → frsmPoint := fun _ _ _ p => p

/-- Full-resolution cell field of the C6 counterexample: the only occupied
location is x = 4. -/
def missCellHi : frsmPoint → ℚ := fun p => if p.x = 4 then 1 else 0

/-- Low-resolution cell field of the C6 counterexample: uniformly flat, so
the coarse pass localizes the wrong region. -/
def missCellLo : frsmPoint → ℚ := fun _ => 0

/-- Translation-only projection shared by the grid-search counterexamples
and witnesses. -/
def shiftProj : ℚ → ℚ → ℚ → frsmPoint → frsmPoint := fun px _ _ p => ⟨p.x + px, p.y⟩

/-- Cell field with its peak exactly on the window edge (x = 2 at window
half-width 2), used by the C5 witness. -/
def edgeCell : frsmPoint → ℚ := fun p => if p.x = 2 then 1 else 0

/-!
## Coordinate-ascent refinement
-/

/-- The pose axes the hill-climbing may perturb; the height-matching modes
restrict refinement to y and theta. -/
inductive AscAxis where
  | axisX
  | axisY
  | axisT
deriving DecidableEq

/-- Modelled from the spec: the candidate perturbations of one refinement
step — the current pose moved by plus or minus the current step along each
allowed axis (`s` for x/y, `st` for theta). -/
def neighborsOf (axes : List AscAxis) (s st : ℚ) (p : ℚ × ℚ × ℚ) : List (ℚ × ℚ × ℚ) :=
  axes.flatMap fun a =>
    match a with
    | .axisX => [(p.1 + s, p.2.1, p.2.2), (p.1 - s, p.2.1, p.2.2)]
    | .axisY => [(p.1, p.2.1 + s, p.2.2), (p.1, p.2.1 - s, p.2.2)]
    | .axisT => [(p.1, p.2.1, p.2.2 + st), (p.1, p.2.1, p.2.2 - st)]

/-- Modelled from the spec: one hill-climbing step — accept the first
perturbation that strictly increases the correlation score `f`, else stay
put. -/
def ascentStep (f : ℚ × ℚ × ℚ → ℚ) (axes : List AscAxis) (s st : ℚ)
    (p : ℚ × ℚ × ℚ) : ℚ × ℚ × ℚ :=
  ((neighborsOf axes s st p).find? fun q => decide (f p < f q)).getD p

/-- Modelled from the spec: the refinement loop — iterate improving steps;
when no axis improves, halve the step sizes; stop once the step has shrunk
below the resolution-derived floor `minStep`.  The header does not bound
the loop, so the model is made total by an explicit iteration budget
`fuel`; every verified property holds for every budget. -/
def ascentLoop (f : ℚ × ℚ × ℚ → ℚ) (axes : List AscAxis) (minStep : ℚ) :
    Nat → ℚ → ℚ → ℚ × ℚ × ℚ → ℚ × ℚ × ℚ
  | 0, _, _, p => p
  | fuel + 1, s, st, p =>
      let q := ascentStep f axes s st p
      if f p < f q then ascentLoop f axes minStep fuel s st q
      else if minStep ≤ s / 2 then ascentLoop f axes minStep fuel (s / 2) (st / 2) p
      else p

/-- Correlation score of a pose triple. -/
def poseScore (cell : frsmPoint → ℚ) (proj : ℚ → ℚ → ℚ → frsmPoint → frsmPoint)
    (points : List frsmPoint) (q : ℚ × ℚ × ℚ) : ℚ :=
  rasterScore cell proj points q.1 q.2.1 q.2.2

/-- Modelled from the spec: `ScanMatcher::coordAscentMatch` — local
hill-climbing refinement of `startPoint` against the current raster; the
returned transform carries the refined pose and its correlation score. -/
def coordAscentMatch (cell : frsmPoint → ℚ) (proj : ℚ → ℚ → ℚ → frsmPoint → frsmPoint)
    (points : List frsmPoint) (axes : List AscAxis) (minStep : ℚ) (fuel : Nat)
    (s0 st0 : ℚ) (startPoint : ScanTransform) : ScanTransform :=
  let r := ascentLoop (poseScore cell proj points) axes minStep fuel s0 st0
    (startPoint.x, startPoint.y, startPoint.theta)
  ⟨r.1, r.2.1, r.2.2, poseScore cell proj points r⟩

/-!
## Matcher state, scan admission and successive matching
-/

/-- Modelled from the spec: the matching-mode enumeration of the header,
selecting which of the two search phases run and whether refinement is
restricted to y/theta (height matching). -/
inductive frsm_incremental_matching_modes_t where
  | FRSM_GRID_ONLY
  | FRSM_GRID_COORD
  | FRSM_Y_GRID_COORD
  | FRSM_RUN_GRID
  | FRSM_COORD_ONLY
  | FRSM_Y_COORD_ONLY
deriving DecidableEq

/-- Modelled from the spec: the `ScanMatcher` object state — the public
configuration fields of the header plus the mutable successive-matching
state (poses, scan window, rasters, pending queue).  Search ranges are
expressed directly in lattice steps. -/
structure MatcherState where
  metersPerPixel : ℚ
  thetaResolution : ℚ
  maxNumScans : Nat
  hitThresh : ℚ
  useMultiRes : Bool
  downsampleFactor : Nat
  useThreads : Bool
  addScanHitThresh : ℚ
  initialSearchStepsXY : Nat
  maxSearchStepsXY : Nat
  initialSearchStepsTheta : Nat
  maxSearchStepsTheta : Nat
  matchingMode : frsm_incremental_matching_modes_t
  stationaryMotionModel : Bool
  motionModelPriorWeight : ℚ
  verbose : Bool
  currentPose : ScanTransform
  prevPose : ScanTransform
  scans : List Scan
  rlt : Option Raster
  rlt_low_res : Option Raster
  scansToBeProcessed : List Scan
deriving DecidableEq

/-- Build a `Scan` from raw matcher inputs. -/
def mkScan (points : List frsmPoint) (T : ScanTransform)
    (laser_type : frsm_laser_type_t) (utime : Int) : Scan :=
  ⟨points, T, laser_type, utime⟩

/-- Modelled from the spec: `ScanMatcher::addScan` — append the scan to the
sliding window (evicting the oldest over-capacity entry) and, when
`rebuildNow` is set, synchronously rebuild the occupancy rasters (both
resolutions) from the updated window; otherwise leave the rasters
untouched. -/
def addScanState (st : MatcherState) (s : Scan) (rebuildNow : Bool) : MatcherState :=
  { st with
    scans := windowAdd st.maxNumScans st.scans s
    rlt := if rebuildNow then
        some (buildRaster (windowAdd st.maxNumScans st.scans s) st.metersPerPixel)
      else st.rlt
    rlt_low_res := if rebuildNow then
        some (buildRaster (windowAdd st.maxNumScans st.scans s)
          (st.metersPerPixel * (st.downsampleFactor : ℚ)))
      else st.rlt_low_res }

/-- Modelled from the spec: `ScanMatcher::addScanToBeProcessed` — in
threaded mode the scan is appended to the pending queue for the background
worker; otherwise this just calls the regular `addScan` synchronously on
the caller's thread. -/
def addScanToBeProcessed (st : MatcherState) (points : List frsmPoint)
    (T : ScanTransform) (laser_type : frsm_laser_type_t) (utime : Int) : MatcherState :=
  if st.useThreads then
    { st with scansToBeProcessed := st.scansToBeProcessed ++ [mkScan points T laser_type utime] }
  else
    addScanState st (mkScan points T laser_type utime) true

/-- Cell lookup through an optional raster; an absent raster scores zero
everywhere.  `rquery` is the raster collaborator's scoring interface. -/
def rasterCell (rquery : Raster → frsmPoint → ℚ) (orl : Option Raster)
    (p : frsmPoint) : ℚ :=
  match orl with
  | some r => rquery r p
  | none => 0

/-- Modelled from the spec: the fraction of input points that score as
"hits" against the current raster at the matched pose. -/
def hitFraction (st : MatcherState) (rquery : Raster → frsmPoint → ℚ)
    (proj : ℚ → ℚ → ℚ → frsmPoint → frsmPoint) (points : List frsmPoint)
    (r : ScanTransform) : ℚ :=
  ((points.countP fun p =>
      decide (st.hitThresh ≤ rasterCell rquery st.rlt (proj r.x r.y r.theta p))) : ℚ) /
    (points.length : ℚ)

/-- Modelled from the spec: the motion-model prediction of the search
center — reuse the current pose (stationary model) or extrapolate at
constant velocity from the two most recent poses; the confidence field
carries the configured motion-model prior weight. -/
def motionPrior (st : MatcherState) : ScanTransform :=
  if st.stationaryMotionModel then
    ⟨st.currentPose.x, st.currentPose.y, st.currentPose.theta, st.motionModelPriorWeight⟩
  else
    ⟨2 * st.currentPose.x - st.prevPose.x, 2 * st.currentPose.y - st.prevPose.y,
      2 * st.currentPose.theta - st.prevPose.theta, st.motionModelPriorWeight⟩

/-- The axes refined by each matching mode (the height-matching variants
exclude x). -/
def modeAxes (m : frsm_incremental_matching_modes_t) : List AscAxis :=
  match m with
  | .FRSM_Y_GRID_COORD => [.axisY, .axisT]
  | .FRSM_Y_COORD_ONLY => [.axisY, .axisT]
  | _ => [.axisX, .axisY, .axisT]

/-- Modelled from the spec: the SEARCH stage of successive matching — grid
search centered at the predicted (or supplied) prior over the initial
window; on any axis saturation, retry once with that axis expanded to its
configured maximum; then refine per the configured matching mode
(`fuel` bounds the refinement loop as in `coordAscentMatch`). -/
def successiveSearch (st : MatcherState) (rquery : Raster → frsmPoint → ℚ)
    (proj : ℚ → ℚ → ℚ → frsmPoint → frsmPoint) (points : List frsmPoint)
    (prior : Option ScanTransform) (fuel : Nat) : ScanTransform :=
  let center := prior.getD (motionPrior st)
  let cellHi := rasterCell rquery st.rlt
  let cellLo := rasterCell rquery st.rlt_low_res
  let r0 := gridMatch st.useMultiRes st.downsampleFactor cellHi cellLo proj points
    (some center) st.metersPerPixel st.thetaResolution st.initialSearchStepsXY
    st.initialSearchStepsXY st.initialSearchStepsTheta
  let r := if r0.xSat || r0.ySat || r0.thetaSat then
      gridMatch st.useMultiRes st.downsampleFactor cellHi cellLo proj points
        (some center) st.metersPerPixel st.thetaResolution
        (if r0.xSat then st.maxSearchStepsXY else st.initialSearchStepsXY)
        (if r0.ySat then st.maxSearchStepsXY else st.initialSearchStepsXY)
        (if r0.thetaSat then st.maxSearchStepsTheta else st.initialSearchStepsTheta)
    else r0
  match st.matchingMode with
  | .FRSM_GRID_ONLY => r.trans
  | .FRSM_RUN_GRID => r.trans
  | .FRSM_GRID_COORD => coordAscentMatch cellHi proj points (modeAxes st.matchingMode)
      (st.metersPerPixel / 2) fuel st.metersPerPixel st.thetaResolution r.trans
  | .FRSM_Y_GRID_COORD => coordAscentMatch cellHi proj points (modeAxes st.matchingMode)
      (st.metersPerPixel / 2) fuel st.metersPerPixel st.thetaResolution r.trans
  | .FRSM_COORD_ONLY => coordAscentMatch cellHi proj points (modeAxes st.matchingMode)
      (st.metersPerPixel / 2) fuel st.metersPerPixel st.thetaResolution center
  | .FRSM_Y_COORD_ONLY => coordAscentMatch cellHi proj points (modeAxes st.matchingMode)
      (st.metersPerPixel / 2) fuel st.metersPerPixel st.thetaResolution center

/-- Modelled from the spec: `ScanMatcher::matchSuccessive` — predict,
search, then decide admission: the scan enters the map (through
`addScanToBeProcessed`, hence the window or the pending queue) exactly when
the hit fraction is below `addScanHitThresh` and the caller did not forbid
admission; the pose pair is updated with the match result in every case.
Returns the updated state and the winning transform. -/
def matchSuccessive (st : MatcherState) (rquery : Raster → frsmPoint → ℚ)
    (proj : ℚ → ℚ → ℚ → frsmPoint → frsmPoint) (points : List frsmPoint)
    (laser_type : frsm_laser_type_t) (utime : Int) (fuel : Nat)
    (preventAddScan : Bool) (prior : Option ScanTransform) :
    MatcherState × ScanTransform :=
  let r := successiveSearch st rquery proj points prior fuel
  let st1 := { st with currentPose := r, prevPose := st.currentPose }
  if hitFraction st rquery proj points r < st.addScanHitThresh ∧ preventAddScan = false then
    (addScanToBeProcessed st1 points r laser_type utime, r)
  else
    (st1, r)

/-- Modelled from the spec: the `ScanMatcher` constructor — records the
resolutions and flags; `useMultires_ = 0` disables multi-resolution search
and `useMultires_ = k` downsamples the low-resolution raster by `2 ^ k`.
The successive-matching parameters take the library defaults (their exact
values live in the absent constructor body and are immaterial here); the
pose state starts at the identity and the window, rasters and queue start
empty. -/
def mkScanMatcher (metersPerPixel_ thetaResolution_ : ℚ) (useMultires_ : Nat)
    (useThreads_ verbose_ : Bool) : MatcherState :=
  { metersPerPixel := metersPerPixel_
    thetaResolution := thetaResolution_
    maxNumScans := 30
    hitThresh := 1
    useMultiRes := decide (0 < useMultires_)
    downsampleFactor := 2 ^ useMultires_
    useThreads := useThreads_
    addScanHitThresh := 4 / 5
    initialSearchStepsXY := 15
    maxSearchStepsXY := 25
    initialSearchStepsTheta := 10
    maxSearchStepsTheta := 20
    matchingMode := .FRSM_GRID_COORD
    stationaryMotionModel := false
    motionModelPriorWeight := 0
    verbose := verbose_
    currentPose := identityTransform
    prevPose := identityTransform
    scans := []
    rlt := none
    rlt_low_res := none
    scansToBeProcessed := [] }

/-!
## Lock-ordering discipline of the threaded mode

The header fixes three mutexes — `scans_mutex` ("lock scans first!"),
`rlt_mutex`, and `toBeProcessed_mutex` ("shouldn't need to be locked
alongside anything else") — with a fixed acquisition order.  The model
assigns each lock a priority, renders each threaded-mode operation as its
acquire/release sequence, checks the sequences against the discipline, and
proves that any set of threads whose held/requested locks respect the
discipline admits no circular wait.
-/

/-- The three mutexes of the threaded mode. -/
inductive LockId where
  | scansL
  | rltL
  | pendingL
deriving DecidableEq

/-- Acquisition priority: the scan-list lock is taken before the raster
lock; the pending-queue lock stands apart (and is additionally never held
together with the others). -/
def lockPriority : LockId → Nat
  | .scansL => 0
  | .rltL => 1
  | .pendingL => 2

/-- A lock acquisition or release. -/
inductive LockEvent where
  | acq : LockId → LockEvent
  | rel : LockId → LockEvent
deriving DecidableEq

/-- The discipline check over an event sequence, tracking the held set:
every acquisition must outrank every held lock, and the pending-queue lock
may only be taken with nothing else held. -/
def disciplineOK : List LockId → List LockEvent → Bool
  | _, [] => true
  | held, .acq l :: rest =>
      held.all (fun l2 => decide (lockPriority l2 < lockPriority l)) &&
        (!(l == .pendingL) || held.isEmpty) &&
        disciplineOK (l :: held) rest
  | held, .rel l :: rest => disciplineOK (held.erase l) rest

/-- Modelled from the spec: the lock sequence of a synchronous rebuild
(window update then raster swap) — scan-list lock first, raster lock
second. -/
def opSyncRebuild : List LockEvent :=
  [.acq .scansL, .acq .rltL, .rel .rltL, .rel .scansL]

/-- Modelled from the spec: the real-time matching path only reads the
current raster under the raster lock. -/
def opMatchRead : List LockEvent :=
  [.acq .rltL, .rel .rltL]

/-- Modelled from the spec: a producer appends to the pending queue under
the pending-queue lock alone. -/
def opEnqueuePending : List LockEvent :=
  [.acq .pendingL, .rel .pendingL]

/-- Modelled from the spec: the background worker drains the pending queue
under its lock, releases it, then rebuilds under scan-list lock followed by
raster lock. -/
def opWorker : List LockEvent :=
  [.acq .pendingL, .rel .pendingL, .acq .scansL, .acq .rltL, .rel .rltL, .rel .scansL]

/-- A thread frozen mid-operation: the locks it holds and the lock it is
requesting. -/
structure ThreadSnap where
  held : List LockId
  req : LockId
deriving DecidableEq

/-- A snapshot respects the discipline when the requested lock outranks
every held lock. -/
def snapOK (t : ThreadSnap) : Prop :=
  ∀ l ∈ t.held, lockPriority l < lockPriority t.req

instance (t : ThreadSnap) : Decidable (snapOK t) := by
  unfold snapOK
  infer_instance

/-- `a` waits for `b` when `a` requests a lock `b` holds. -/
def waitsFor (threads : List ThreadSnap) (a b : ThreadSnap) : Prop :=
  a ∈ threads ∧ b ∈ threads ∧ a.req ∈ b.held

/-- A two-thread configuration respecting the discipline: one holds the
scan-list lock and requests the raster lock, the other requests the
scan-list lock holding nothing. -/
def demoThreads : List ThreadSnap :=
  [⟨[.scansL], .rltL⟩, ⟨[], .scansL⟩]

/-!
## Theorems
-/

theorem windowAdd_fold (maxN : Nat) (adm : List Scan) :
    adm.foldl (windowAdd maxN) [] = adm.drop (adm.length - maxN) := by
  induction adm using List.reverseRecOn with
  | nil => simp
  | append_singleton l s ih =>
      rw [List.foldl_append, ih]
      simp only [List.foldl_cons, List.foldl_nil, windowAdd, List.length_append,
        List.length_drop, List.length_singleton]
      rcases le_or_lt l.length maxN with hle | hlt
      · have h0 : l.length - maxN = 0 := by omega
        rw [h0, List.drop_zero]
        split_ifs with h
        · have hd1 : l.length + 1 - maxN = 1 := by omega
          rw [hd1, List.drop_one]
        · have hd0 : l.length + 1 - maxN = 0 := by omega
          rw [hd0, List.drop_zero]
      · have hpos : maxN < (l.drop (l.length - maxN)).length + 1 := by
          simp only [List.length_drop]
          omega
        have hgoal : maxN < l.length - (l.length - maxN) + 1 := by omega
        rw [if_pos hgoal]
        match maxN, hlt with
        | 0, hlt =>
            rw [Nat.sub_zero, List.drop_length, List.nil_append, List.tail_cons]
            symm
            apply List.drop_eq_nil_of_le
            simp
        | (m + 1), hlt =>
            have h2 : l.length + 1 - (m + 1) ≤ l.length := by omega
            rw [List.drop_append_of_le_length h2]
            have h3 : (l.drop (l.length - (m + 1))).tail = l.drop (l.length - (m + 1) + 1) := by
              rw [List.tail_drop]
            have h4 : l.length - (m + 1) + 1 = l.length + 1 - (m + 1) := by omega
            cases hd : l.drop (l.length - (m + 1)) with
            | nil =>
                have hlen := congrArg List.length hd
                simp only [List.length_drop, List.length_nil] at hlen
                omega
            | cons a t =>
                simp only [List.cons_append, List.tail_cons]
                have h5 : l.drop (l.length + 1 - (m + 1)) = t := by
                  rw [← h4, ← h3, hd, List.tail_cons]
                rw [h5]

theorem mem_intRange {lo hi i : Int} : i ∈ intRange lo hi ↔ lo ≤ i ∧ i ≤ hi := by
  constructor
  · intro h
    obtain ⟨j, hj, rfl⟩ := List.mem_map.mp h
    rw [List.mem_range] at hj
    omega
  · intro h
    obtain ⟨h1, h2⟩ := h
    apply List.mem_map.mpr
    refine ⟨(i - lo).toNat, ?_, by omega⟩
    rw [List.mem_range]
    omega

theorem mem_candsBox {xlo xhi ylo yhi tlo thi : Int} {c : Cand} :
    c ∈ candsBox xlo xhi ylo yhi tlo thi ↔
      (xlo ≤ c.ix ∧ c.ix ≤ xhi) ∧ (ylo ≤ c.iy ∧ c.iy ≤ yhi) ∧
        (tlo ≤ c.it ∧ c.it ≤ thi) := by
  unfold candsBox
  simp only [List.mem_flatMap, List.mem_map, mem_intRange]
  constructor
  · rintro ⟨ix, hix, iy, hiy, it, hit, rfl⟩
    exact ⟨hix, hiy, hit⟩
  · rintro ⟨hix, hiy, hit⟩
    exact ⟨c.ix, hix, c.iy, hiy, c.it, hit, rfl⟩

theorem betterB_iff {f d : Cand → ℚ} {c b : Cand} :
    betterB f d c b = true ↔ betterP f d c b := by
  unfold betterB betterP
  simp

theorem notBetter_iff {f d : Cand → ℚ} {c b : Cand} :
    ¬ betterP f d c b ↔ f c ≤ f b ∧ (f c = f b → d b ≤ d c) := by
  unfold betterP
  constructor
  · intro h
    constructor
    · by_contra hlt
      exact h (Or.inl (lt_of_not_le hlt))
    · intro heq
      by_contra hd
      exact h (Or.inr ⟨heq, lt_of_not_le hd⟩)
  · rintro ⟨h1, h2⟩ (hlt | ⟨heq, hd⟩)
    · exact absurd h1 (not_le_of_lt hlt)
    · exact absurd (h2 heq) (not_le_of_lt hd)

theorem betterP_irrefl (f d : Cand → ℚ) (c : Cand) : ¬ betterP f d c c := by
  rw [notBetter_iff]
  exact ⟨le_refl _, fun _ => le_refl _⟩

theorem notBetter_trans {f d : Cand → ℚ} {x y z : Cand}
    (h1 : ¬ betterP f d y x) (h2 : ¬ betterP f d x z) : ¬ betterP f d y z := by
  rw [notBetter_iff] at h1 h2 ⊢
  obtain ⟨ha, hb⟩ := h1
  obtain ⟨hc, hd⟩ := h2
  refine ⟨le_trans ha hc, fun he => ?_⟩
  have hxy : f y = f x := le_antisymm (by linarith) (by linarith)
  have hxz : f x = f z := le_antisymm hc (by linarith)
  exact le_trans (hd hxz) (hb hxy)

theorem betterNotBetter {f d : Cand → ℚ} {c b r : Cand}
    (h1 : betterP f d c b) (h2 : ¬ betterP f d c r) : ¬ betterP f d b r := by
  rw [notBetter_iff] at h2 ⊢
  obtain ⟨ha, hb⟩ := h2
  rcases h1 with hlt | ⟨heq, hd⟩
  · refine ⟨le_trans (le_of_lt hlt) ha, fun he => ?_⟩
    linarith
  · refine ⟨by linarith, fun he => ?_⟩
    have : f c = f r := by linarith
    linarith [hb this]

theorem pickBest_mem (f d : Cand → ℚ) :
    ∀ (l : List Cand) (b : Cand), pickBest f d l b ∈ b :: l := by
  intro l
  induction l with
  | nil => intro b; simp [pickBest]
  | cons c rest ih =>
      intro b
      simp only [pickBest]
      split_ifs with h
      · have := ih c
        rcases List.mem_cons.mp this with h1 | h1
        · rw [h1]; simp
        · exact List.mem_cons_of_mem _ (List.mem_cons_of_mem _ h1)
      · have := ih b
        rcases List.mem_cons.mp this with h1 | h1
        · rw [h1]; simp
        · exact List.mem_cons_of_mem _ (List.mem_cons_of_mem _ h1)

theorem pickBest_notBetter (f d : Cand → ℚ) :
    ∀ (l : List Cand) (b c : Cand), c ∈ b :: l →
      ¬ betterP f d c (pickBest f d l b) := by
  intro l
  induction l with
  | nil =>
      intro b c hc
      rcases List.mem_cons.mp hc with h1 | h1
      · rw [h1]; simp only [pickBest]; exact betterP_irrefl f d b
      · simp at h1
  | cons c0 rest ih =>
      intro b c hc
      simp only [pickBest]
      split_ifs with h
      · -- the incumbent is replaced by c0
        have hbP : betterP f d c0 b := betterB_iff.mp h
        have hc0 : ¬ betterP f d c0 (pickBest f d rest c0) :=
          ih c0 c0 (List.mem_cons_self _ _)
        rcases List.mem_cons.mp hc with h1 | h1
        · -- c = b : beaten by c0 which is not better than the result
          rw [h1]
          exact betterNotBetter hbP hc0
        · rcases List.mem_cons.mp h1 with h2 | h2
          · rw [h2]; exact hc0
          · exact ih c0 c (List.mem_cons_of_mem _ h2)
      · -- the incumbent b survives against c0
        have hnb : ¬ betterP f d c0 b := fun hp => h (betterB_iff.mpr hp)
        have hb : ¬ betterP f d b (pickBest f d rest b) :=
          ih b b (List.mem_cons_self _ _)
        rcases List.mem_cons.mp hc with h1 | h1
        · rw [h1]; exact hb
        · rcases List.mem_cons.mp h1 with h2 | h2
          · rw [h2]; exact notBetter_trans hnb hb
          · exact ih b c (List.mem_cons_of_mem _ h2)

theorem pickBest_score_le (f d : Cand → ℚ) (l : List Cand) (b c : Cand)
    (hc : c ∈ b :: l) : f c ≤ f (pickBest f d l b) :=
  (notBetter_iff.mp (pickBest_notBetter f d l b c hc)).1

theorem pickBest_tie (f d : Cand → ℚ) (l : List Cand) (b c : Cand)
    (hc : c ∈ b :: l) (he : f c = f (pickBest f d l b)) :
    d (pickBest f d l b) ≤ d c :=
  (notBetter_iff.mp (pickBest_notBetter f d l b c hc)).2 he

/-!
## Degenerate inputs for gridMatch
-/

theorem rasterScore_nil (cell : frsmPoint → ℚ) (proj : ℚ → ℚ → ℚ → frsmPoint → frsmPoint)
    (px py pt : ℚ) : rasterScore cell proj [] px py pt = 0 := by
  simp [rasterScore]

theorem candDist_nonneg (rx rt : ℚ) (c : Cand) : 0 ≤ candDist rx rt c := by
  unfold candDist
  positivity

theorem candDist_center (rx rt : ℚ) : candDist rx rt ⟨0, 0, 0⟩ = 0 := by
  simp [candDist]

theorem candDist_eq_zero {rx rt : ℚ} {c : Cand} (h : candDist rx rt c = 0) :
    (c.ix : ℚ) * rx = 0 ∧ (c.iy : ℚ) * rx = 0 ∧ (c.it : ℚ) * rt = 0 := by
  unfold candDist at h
  have h1 : ((c.ix : ℚ) * rx) ^ 2 = 0 := by
    nlinarith [sq_nonneg ((c.ix : ℚ) * rx), sq_nonneg ((c.iy : ℚ) * rx),
      sq_nonneg ((c.it : ℚ) * rt)]
  have h2 : ((c.iy : ℚ) * rx) ^ 2 = 0 := by
    nlinarith [sq_nonneg ((c.ix : ℚ) * rx), sq_nonneg ((c.iy : ℚ) * rx),
      sq_nonneg ((c.it : ℚ) * rt)]
  have h3 : ((c.it : ℚ) * rt) ^ 2 = 0 := by
    nlinarith [sq_nonneg ((c.ix : ℚ) * rx), sq_nonneg ((c.iy : ℚ) * rx),
      sq_nonneg ((c.it : ℚ) * rt)]
  refine ⟨?_, ?_, ?_⟩
  · exact pow_eq_zero_iff two_ne_zero |>.mp h1
  · exact pow_eq_zero_iff two_ne_zero |>.mp h2
  · exact pow_eq_zero_iff two_ne_zero |>.mp h3

theorem gridEval_apply (cell : frsmPoint → ℚ) (proj : ℚ → ℚ → ℚ → frsmPoint → frsmPoint)
    (points : List frsmPoint) (c0 : ScanTransform) (rx rt : ℚ) (c : Cand) :
    gridEval cell proj points c0 rx rt c =
      rasterScore cell proj points (c0.x + (c.ix : ℚ) * rx) (c0.y + (c.iy : ℚ) * rx)
          (c0.theta + (c.it : ℚ) * rt) -
        (if 1 / 10 ≤ c0.score then candDist rx rt c / (2 * c0.score ^ 2) else 0) :=
  rfl

theorem gridEval_nil (cell : frsmPoint → ℚ) (proj : ℚ → ℚ → ℚ → frsmPoint → frsmPoint)
    (c0 : ScanTransform) (rx rt : ℚ) (c : Cand) :
    gridEval cell proj [] c0 rx rt c =
      -(if 1 / 10 ≤ c0.score then candDist rx rt c / (2 * c0.score ^ 2) else 0) := by
  simp [gridEval, rasterScore]

/-- On an empty point set, any `pickBest` run of the grid evaluation whose
initial incumbent sits at the window center ends at a candidate whose pose
offset is zero. -/
theorem pickBest_nil_dist_zero (cell : frsmPoint → ℚ)
    (proj : ℚ → ℚ → ℚ → frsmPoint → frsmPoint) (c0 : ScanTransform) (rx rt : ℚ)
    (l : List Cand) (init : Cand) (hinit : candDist rx rt init = 0) :
    candDist rx rt
      (pickBest (gridEval cell proj [] c0 rx rt) (candDist rx rt) l init) = 0 := by
  have hmem : init ∈ init :: l := List.mem_cons_self _ _
  have hle := pickBest_score_le (gridEval cell proj [] c0 rx rt) (candDist rx rt) l init
    init hmem
  by_cases hinf : (1 : ℚ) / 10 ≤ c0.score
  · have hs : (0 : ℚ) < 2 * c0.score ^ 2 := by nlinarith
    rw [gridEval_nil, gridEval_nil, if_pos hinf, if_pos hinf, hinit] at hle
    have hdiv : candDist rx rt
        (pickBest (gridEval cell proj [] c0 rx rt) (candDist rx rt) l init) /
          (2 * c0.score ^ 2) ≤ 0 := by
      simp only [zero_div, neg_zero] at hle
      linarith
    rcases div_nonpos_iff.mp hdiv with ⟨_, hk⟩ | ⟨hd, _⟩
    · linarith
    · exact le_antisymm hd (candDist_nonneg rx rt _)
  · have heq : gridEval cell proj [] c0 rx rt init =
        gridEval cell proj [] c0 rx rt
          (pickBest (gridEval cell proj [] c0 rx rt) (candDist rx rt) l init) := by
      rw [gridEval_nil, gridEval_nil, if_neg hinf, if_neg hinf]
    have htie := pickBest_tie (gridEval cell proj [] c0 rx rt) (candDist rx rt) l init
      init hmem heq
    rw [hinit] at htie
    exact le_antisymm htie (candDist_nonneg rx rt _)

theorem clampI_zero (n : Nat) : clampI n 0 = 0 := by
  unfold clampI
  omega

theorem clampI_term_zero (n : Nat) (v : Int) (r : ℚ) (h : (v : ℚ) * r = 0) :
    ((clampI n v : Int) : ℚ) * r = 0 := by
  rcases mul_eq_zero.mp h with hv | hr
  · have hv0 : v = 0 := by exact_mod_cast hv
    rw [hv0, clampI_zero]
    simp
  · rw [hr, mul_zero]

theorem clampI_dist_zero {rx rt : ℚ} {c : Cand} (nx ny nt : Nat)
    (h : candDist rx rt c = 0) :
    candDist rx rt ⟨clampI nx c.ix, clampI ny c.iy, clampI nt c.it⟩ = 0 := by
  obtain ⟨h1, h2, h3⟩ := candDist_eq_zero h
  unfold candDist
  rw [clampI_term_zero nx c.ix rx h1, clampI_term_zero ny c.iy rx h2,
    clampI_term_zero nt c.it rt h3]
  norm_num

theorem coarseSteps_zero (dsf : Nat) : coarseSteps dsf 0 = 0 := by
  cases dsf with
  | zero => rfl
  | succ k =>
      unfold coarseSteps
      exact Nat.div_eq_of_lt (by omega)

theorem intRange_zero : intRange 0 0 = [0] := by
  decide

theorem candsBox_zero : candsBox 0 0 0 0 0 0 = [⟨0, 0, 0⟩] := by
  decide

theorem coarseCands_zero_range (dsf : Nat) : coarseCands dsf 0 0 0 = [⟨0, 0, 0⟩] := by
  unfold coarseCands
  rw [coarseSteps_zero]
  simp [intRange_zero]

theorem pickBest_singleton_self (f d : Cand → ℚ) (c : Cand) :
    pickBest f d [c] c = c := by
  simp [pickBest]

theorem gridBestCand_zero_range (useMR : Bool) (dsf : Nat) (fHi fLo d : Cand → ℚ) :
    gridBestCand useMR dsf fHi fLo d 0 0 0 = ⟨0, 0, 0⟩ := by
  cases useMR with
  | false =>
      simp only [gridBestCand, Bool.false_eq_true, if_neg, gridBestSingle]
      rw [show (-(((0 : Nat)) : Int)) = 0 by norm_num, show (((0 : Nat)) : Int) = 0 by norm_num,
        candsBox_zero]
      exact pickBest_singleton_self _ _ _
  | true =>
      simp only [gridBestCand, if_pos, gridBestMulti]
      rw [coarseCands_zero_range]
      rw [pickBest_singleton_self]
      have hx : max (-(((0 : Nat)) : Int)) ((0 : Int) - (dsf : Int)) = 0 := by
        simp only [Nat.cast_zero, neg_zero]
        omega
      have hx2 : min (((0 : Nat)) : Int) ((0 : Int) + (dsf : Int)) = 0 := by
        simp only [Nat.cast_zero]
        omega
      simp only [clampI_zero]
      rw [hx, hx2]
      rw [show (-(((0 : Nat)) : Int)) = 0 by norm_num, show (((0 : Nat)) : Int) = 0 by norm_num,
        candsBox_zero]
      exact pickBest_singleton_self _ _ _

/-- The winning candidate of `gridMatch` has zero pose offset whenever the
point set is empty or the search ranges are all zero. -/
theorem gridBestCand_degenerate (useMR : Bool) (dsf : Nat)
    (cellHi cellLo : frsmPoint → ℚ) (proj : ℚ → ℚ → ℚ → frsmPoint → frsmPoint)
    (points : List frsmPoint) (c0 : ScanTransform) (rx rt : ℚ) (nx ny nt : Nat)
    (h : points = [] ∨ nx = 0 ∧ ny = 0 ∧ nt = 0) :
    candDist rx rt
      (gridBestCand useMR dsf (gridEval cellHi proj points c0 rx rt)
        (gridEval cellLo proj points c0 rx rt) (candDist rx rt) nx ny nt) = 0 := by
  rcases h with hpts | ⟨hnx, hny, hnt⟩
  · subst hpts
    cases useMR with
    | false =>
        simp only [gridBestCand, Bool.false_eq_true, if_neg, gridBestSingle]
        exact pickBest_nil_dist_zero cellHi proj c0 rx rt _ _ (candDist_center rx rt)
    | true =>
        simp only [gridBestCand, if_pos, gridBestMulti]
        apply pickBest_nil_dist_zero cellHi proj c0 rx rt
        apply clampI_dist_zero
        exact pickBest_nil_dist_zero cellLo proj c0 rx rt _ _ (candDist_center rx rt)
  · subst hnx; subst hny; subst hnt
    rw [gridBestCand_zero_range]
    exact candDist_center rx rt

/-- C2 (amended): on degenerate input — an empty point set or an all-zero
search range — `gridMatch` returns normally with the pose of the supplied
prior (the identity pose when no prior is given); its score is the raw
correlation of the point set at that pose, which is `0` (no evidence)
whenever the point set is empty. -/
theorem gridMatch_degenerate (useMR : Bool) (dsf : Nat)
    (cellHi cellLo : frsmPoint → ℚ) (proj : ℚ → ℚ → ℚ → frsmPoint → frsmPoint)
    (points : List frsmPoint) (prior : Option ScanTransform) (rx rt : ℚ)
    (nx ny nt : Nat) (h : points = [] ∨ nx = 0 ∧ ny = 0 ∧ nt = 0) :
    (gridMatch useMR dsf cellHi cellLo proj points prior rx rt nx ny nt).trans.x =
        (prior.getD identityTransform).x ∧
    (gridMatch useMR dsf cellHi cellLo proj points prior rx rt nx ny nt).trans.y =
        (prior.getD identityTransform).y ∧
    (gridMatch useMR dsf cellHi cellLo proj points prior rx rt nx ny nt).trans.theta =
        (prior.getD identityTransform).theta ∧
    (gridMatch useMR dsf cellHi cellLo proj points prior rx rt nx ny nt).trans.score =
        rasterScore cellHi proj points (prior.getD identityTransform).x
          (prior.getD identityTransform).y (prior.getD identityTransform).theta ∧
    (points = [] →
      (gridMatch useMR dsf cellHi cellLo proj points prior rx rt nx ny nt).trans.score
        = 0) := by
  have hd := gridBestCand_degenerate useMR dsf cellHi cellLo proj points
    (prior.getD identityTransform) rx rt nx ny nt h
  obtain ⟨h1, h2, h3⟩ := candDist_eq_zero hd
  simp only [gridMatch]
  refine ⟨by rw [h1, add_zero], by rw [h2, add_zero], by rw [h3, add_zero], ?_, ?_⟩
  · rw [gridEval_apply, h1, h2, h3, add_zero, add_zero, add_zero, hd]
    split_ifs with hinf
    · rw [zero_div, sub_zero]
    · rw [sub_zero]
  · intro hpts
    subst hpts
    rw [gridEval_nil, hd]
    split_ifs with hinf
    · rw [zero_div, neg_zero]
    · rw [neg_zero]

/-- C2 counterexample: a zero-size search range with a nonempty point set is
degenerate per the claim, yet the returned score is the full correlation
score `1` — evidence, not the claimed "no evidence" value `0`. -/
theorem gridMatch_degenerate_cex :
    (gridMatch false 1 degenCell degenCell degenProj [⟨0, 0⟩] none 1 1 0 0 0).trans.score
      = 1 ∧ (1 : ℚ) ≠ 0 := by
  constructor
  · norm_num [gridMatch, gridBestCand, gridBestSingle, candsBox_zero,
      pickBest_singleton_self, gridEval, rasterScore, candDist, identityTransform,
      degenCell, degenProj, Option.getD, pickBest]
  · norm_num

/-- C2 witness: the amended theorem applied at an empty point set. -/
theorem gridMatch_degenerate_witness :
    (gridMatch false 1 degenCell degenCell degenProj [] none 1 1 2 2 2).trans.x =
        (Option.getD (none : Option ScanTransform) identityTransform).x ∧
    (gridMatch false 1 degenCell degenCell degenProj [] none 1 1 2 2 2).trans.score = 0 := by
  have h := gridMatch_degenerate false 1 degenCell degenCell degenProj [] none 1 1 2 2 2
    (Or.inl rfl)
  exact ⟨h.1, h.2.2.2.2 rfl⟩

/-!
## Exhaustiveness, maximality and tie-breaking of the grid search
-/

theorem gridBestSingle_mem (f d : Cand → ℚ) (nx ny nt : Nat) :
    gridBestSingle f d nx ny nt ∈
      candsBox (-(nx : Int)) (nx : Int) (-(ny : Int)) (ny : Int) (-(nt : Int)) (nt : Int) := by
  have h := pickBest_mem f d
    (candsBox (-(nx : Int)) (nx : Int) (-(ny : Int)) (ny : Int) (-(nt : Int)) (nt : Int))
    ⟨0, 0, 0⟩
  rcases List.mem_cons.mp h with h1 | h1
  · rw [gridBestSingle, h1]
    apply mem_candsBox.mpr
    refine ⟨⟨?_, ?_⟩, ⟨?_, ?_⟩, ⟨?_, ?_⟩⟩ <;> simp
  · exact h1

/-- C6 (amended): with multi-resolution search disabled, `gridMatch`
evaluates every lattice candidate inside the search window, returns the
candidate maximizing the prior-adjusted correlation score, and among
score-ties prefers the candidate closest to the window center; with
multi-resolution enabled only the refined window around the coarse optimum
is evaluated at full resolution. -/
theorem gridMatch_singleres_exhaustive (dsf : Nat) (cellHi cellLo : frsmPoint → ℚ)
    (proj : ℚ → ℚ → ℚ → frsmPoint → frsmPoint) (points : List frsmPoint)
    (prior : Option ScanTransform) (rx rt : ℚ) (nx ny nt : Nat) :
    (gridMatch false dsf cellHi cellLo proj points prior rx rt nx ny nt).trans.score =
      gridEval cellHi proj points (prior.getD identityTransform) rx rt
        (gridBestSingle
          (gridEval cellHi proj points (prior.getD identityTransform) rx rt)
          (candDist rx rt) nx ny nt) ∧
    (gridBestSingle (gridEval cellHi proj points (prior.getD identityTransform) rx rt)
        (candDist rx rt) nx ny nt ∈
      candsBox (-(nx : Int)) (nx : Int) (-(ny : Int)) (ny : Int) (-(nt : Int)) (nt : Int)) ∧
    ∀ c : Cand, -(nx : Int) ≤ c.ix → c.ix ≤ (nx : Int) → -(ny : Int) ≤ c.iy →
      c.iy ≤ (ny : Int) → -(nt : Int) ≤ c.it → c.it ≤ (nt : Int) →
      gridEval cellHi proj points (prior.getD identityTransform) rx rt c ≤
        gridEval cellHi proj points (prior.getD identityTransform) rx rt
          (gridBestSingle
            (gridEval cellHi proj points (prior.getD identityTransform) rx rt)
            (candDist rx rt) nx ny nt) ∧
      (gridEval cellHi proj points (prior.getD identityTransform) rx rt c =
          gridEval cellHi proj points (prior.getD identityTransform) rx rt
            (gridBestSingle
              (gridEval cellHi proj points (prior.getD identityTransform) rx rt)
              (candDist rx rt) nx ny nt) →
        candDist rx rt
            (gridBestSingle
              (gridEval cellHi proj points (prior.getD identityTransform) rx rt)
              (candDist rx rt) nx ny nt) ≤ candDist rx rt c) := by
  refine ⟨by simp [gridMatch, gridBestCand], gridBestSingle_mem _ _ nx ny nt, ?_⟩
  intro c hx1 hx2 hy1 hy2 ht1 ht2
  have hc : c ∈ ⟨0, 0, 0⟩ ::
      candsBox (-(nx : Int)) (nx : Int) (-(ny : Int)) (ny : Int) (-(nt : Int)) (nt : Int) :=
    List.mem_cons_of_mem _ (mem_candsBox.mpr ⟨⟨hx1, hx2⟩, ⟨hy1, hy2⟩, ⟨ht1, ht2⟩⟩)
  exact ⟨pickBest_score_le _ _ _ _ c hc, fun he => pickBest_tie _ _ _ _ c hc he⟩

/-- C6 counterexample: with multi-resolution enabled, `gridMatch` returns
score `0` although the in-window lattice candidate at offset `(4, 0, 0)`
scores `1` — the claim that every lattice candidate inside the window is
evaluated and the maximum returned is false for the multi-resolution
pipeline. -/
theorem gridMatch_multires_cex :
    (gridMatch true 2 missCellHi missCellLo shiftProj [⟨0, 0⟩] none 1 1 4 0 0).trans.score
        = 0 ∧
    gridEval missCellHi shiftProj [⟨0, 0⟩]
        (Option.getD (none : Option ScanTransform) identityTransform) 1 1 ⟨4, 0, 0⟩ = 1 ∧
    (-(4 : Int) ≤ 4 ∧ (4 : Int) ≤ 4) ∧ (0 : ℚ) < 1 := by
  have hcoarse : coarseCands 2 4 0 0 =
      [⟨-4, 0, 0⟩, ⟨-2, 0, 0⟩, ⟨0, 0, 0⟩, ⟨2, 0, 0⟩, ⟨4, 0, 0⟩] := by decide
  have hfine : candsBox (-2 : Int) 2 0 0 0 0 =
      [⟨-2, 0, 0⟩, ⟨-1, 0, 0⟩, ⟨0, 0, 0⟩, ⟨1, 0, 0⟩, ⟨2, 0, 0⟩] := by decide
  have hfLo : pickBest (gridEval missCellLo shiftProj [⟨0, 0⟩] identityTransform 1 1)
      (candDist 1 1) (coarseCands 2 4 0 0) ⟨0, 0, 0⟩ = ⟨0, 0, 0⟩ := by
    rw [hcoarse]
    norm_num [pickBest, betterB, gridEval, rasterScore, candDist, missCellLo,
      shiftProj, identityTransform]
  have hb : gridBestCand true 2
      (gridEval missCellHi shiftProj [⟨0, 0⟩] identityTransform 1 1)
      (gridEval missCellLo shiftProj [⟨0, 0⟩] identityTransform 1 1)
      (candDist 1 1) 4 0 0 = ⟨0, 0, 0⟩ := by
    simp only [gridBestCand, if_pos, gridBestMulti]
    rw [hfLo]
    have hargs : candsBox (max (-((4 : Nat) : Int)) ((Cand.mk 0 0 0).ix - ((2 : Nat) : Int)))
        (min ((4 : Nat) : Int) ((Cand.mk 0 0 0).ix + ((2 : Nat) : Int)))
        (max (-((0 : Nat) : Int)) ((Cand.mk 0 0 0).iy - ((2 : Nat) : Int)))
        (min ((0 : Nat) : Int) ((Cand.mk 0 0 0).iy + ((2 : Nat) : Int)))
        (-((0 : Nat) : Int)) ((0 : Nat) : Int) = candsBox (-2 : Int) 2 0 0 0 0 := by
      norm_num
    rw [hargs, hfine]
    have hinit : (Cand.mk (clampI 4 (Cand.mk 0 0 0).ix) (clampI 0 (Cand.mk 0 0 0).iy)
        (clampI 0 (Cand.mk 0 0 0).it)) = Cand.mk 0 0 0 := by
      simp [clampI_zero]
    rw [hinit]
    norm_num [pickBest, betterB, gridEval, rasterScore, candDist, missCellHi,
      shiftProj, identityTransform]
  refine ⟨?_, ?_, ⟨by decide, by decide⟩, by norm_num⟩
  · have hscore : (gridMatch true 2 missCellHi missCellLo shiftProj [⟨0, 0⟩] none
        1 1 4 0 0).trans.score =
        gridEval missCellHi shiftProj [⟨0, 0⟩] identityTransform 1 1 ⟨0, 0, 0⟩ := by
      simp only [gridMatch, Option.getD_none]
      rw [hb]
    rw [hscore]
    norm_num [gridEval, rasterScore, candDist, missCellHi, shiftProj, identityTransform]
  · norm_num [gridEval, rasterScore, candDist, missCellHi, shiftProj, identityTransform]

/-- C6 witness: the amended single-resolution maximality applied at a
concrete scenario, dominating the candidate at offset `(1, 0, 0)`. -/
theorem gridMatch_singleres_exhaustive_witness :
    (-((2 : Nat) : Int) ≤ (1 : Int) ∧ (1 : Int) ≤ ((2 : Nat) : Int)) ∧
    gridEval missCellHi shiftProj [⟨0, 0⟩]
        (Option.getD (none : Option ScanTransform) identityTransform) 1 1 ⟨1, 0, 0⟩ ≤
      gridEval missCellHi shiftProj [⟨0, 0⟩]
        (Option.getD (none : Option ScanTransform) identityTransform) 1 1
        (gridBestSingle
          (gridEval missCellHi shiftProj [⟨0, 0⟩]
            (Option.getD (none : Option ScanTransform) identityTransform) 1 1)
          (candDist 1 1) 2 0 0) := by
  refine ⟨⟨by decide, by decide⟩, ?_⟩
  exact ((gridMatch_singleres_exhaustive 1 missCellHi missCellLo shiftProj [⟨0, 0⟩]
    none 1 1 2 0 0).2.2 ⟨1, 0, 0⟩ (by decide) (by decide) (by decide) (by decide)
    (by decide) (by decide)).1

/-!
## Sub-threshold priors center the window without reweighting
-/

theorem gridEval_noninformative (cell : frsmPoint → ℚ)
    (proj : ℚ → ℚ → ℚ → frsmPoint → frsmPoint) (points : List frsmPoint)
    {c0 : ScanTransform} (rx rt : ℚ) (h : c0.score < 1 / 10) :
    gridEval cell proj points c0 rx rt = fun c =>
      rasterScore cell proj points (c0.x + (c.ix : ℚ) * rx) (c0.y + (c.iy : ℚ) * rx)
        (c0.theta + (c.it : ℚ) * rt) := by
  funext c
  rw [gridEval_apply, if_neg (not_le.mpr h), sub_zero]

/-- C4: a prior whose confidence is below the `0.1` threshold only centers
the search window — `gridMatch` returns exactly what it returns for a
zero-confidence prior at the same pose, and every lattice candidate's
evaluated score is the raw, unpenalized correlation score, so the relative
ranking of candidates at given offsets is untouched. -/
theorem gridMatch_subthreshold_prior (useMR : Bool) (dsf : Nat)
    (cellHi cellLo : frsmPoint → ℚ) (proj : ℚ → ℚ → ℚ → frsmPoint → frsmPoint)
    (points : List frsmPoint) (p : ScanTransform) (rx rt : ℚ) (nx ny nt : Nat)
    (h : p.score < 1 / 10) :
    gridMatch useMR dsf cellHi cellLo proj points (some p) rx rt nx ny nt =
      gridMatch useMR dsf cellHi cellLo proj points (some ⟨p.x, p.y, p.theta, 0⟩)
        rx rt nx ny nt ∧
    ∀ c : Cand, gridEval cellHi proj points p rx rt c =
      rasterScore cellHi proj points (p.x + (c.ix : ℚ) * rx) (p.y + (c.iy : ℚ) * rx)
        (p.theta + (c.it : ℚ) * rt) := by
  have h0 : (⟨p.x, p.y, p.theta, 0⟩ : ScanTransform).score < 1 / 10 := by norm_num
  have e : ∀ cell : frsmPoint → ℚ,
      gridEval cell proj points p rx rt =
        gridEval cell proj points ⟨p.x, p.y, p.theta, 0⟩ rx rt := by
    intro cell
    rw [gridEval_noninformative cell proj points rx rt h,
      gridEval_noninformative cell proj points rx rt h0]
  constructor
  · simp only [gridMatch, Option.getD_some, e]
  · intro c
    rw [gridEval_apply, if_neg (not_le.mpr h), sub_zero]

/-- C4 witness: the theorem applied to a concrete prior with confidence
`1/20 < 1/10`. -/
theorem gridMatch_subthreshold_prior_witness :
    ((⟨1, 0, 0, 1 / 20⟩ : ScanTransform).score < 1 / 10) ∧
    gridMatch false 1 missCellHi missCellLo shiftProj [⟨0, 0⟩]
        (some ⟨1, 0, 0, 1 / 20⟩) 1 1 1 0 0 =
      gridMatch false 1 missCellHi missCellLo shiftProj [⟨0, 0⟩]
        (some ⟨1, 0, 0, 0⟩) 1 1 1 0 0 := by
  refine ⟨by norm_num, ?_⟩
  exact (gridMatch_subthreshold_prior false 1 missCellHi missCellLo shiftProj [⟨0, 0⟩]
    ⟨1, 0, 0, 1 / 20⟩ 1 1 1 0 0 (by norm_num)).1

/-!
## Saturation flags
-/

/-- C5: a saturation flag of `gridMatch` is set exactly when the winning
transform lies on the outer boundary of the search window along that axis
(the window extends `nx * rx`, `ny * rx`, `nt * rt` from its center). -/
theorem gridMatch_saturation (useMR : Bool) (dsf : Nat)
    (cellHi cellLo : frsmPoint → ℚ) (proj : ℚ → ℚ → ℚ → frsmPoint → frsmPoint)
    (points : List frsmPoint) (prior : Option ScanTransform) (rx rt : ℚ)
    (nx ny nt : Nat) (hrx : 0 < rx) (hrt : 0 < rt) :
    ((gridMatch useMR dsf cellHi cellLo proj points prior rx rt nx ny nt).xSat = true ↔
      |(gridMatch useMR dsf cellHi cellLo proj points prior rx rt nx ny nt).trans.x -
          (prior.getD identityTransform).x| = (nx : ℚ) * rx) ∧
    ((gridMatch useMR dsf cellHi cellLo proj points prior rx rt nx ny nt).ySat = true ↔
      |(gridMatch useMR dsf cellHi cellLo proj points prior rx rt nx ny nt).trans.y -
          (prior.getD identityTransform).y| = (ny : ℚ) * rx) ∧
    ((gridMatch useMR dsf cellHi cellLo proj points prior rx rt nx ny nt).thetaSat = true ↔
      |(gridMatch useMR dsf cellHi cellLo proj points prior rx rt nx ny nt).trans.theta -
          (prior.getD identityTransform).theta| = (nt : ℚ) * rt) := by
  simp only [gridMatch, decide_eq_true_eq]
  refine ⟨?_, ?_, ?_⟩
  · rw [show (prior.getD identityTransform).x +
        ((gridBestCand useMR dsf
          (gridEval cellHi proj points (prior.getD identityTransform) rx rt)
          (gridEval cellLo proj points (prior.getD identityTransform) rx rt)
          (candDist rx rt) nx ny nt).ix : ℚ) * rx -
        (prior.getD identityTransform).x =
        ((gridBestCand useMR dsf
          (gridEval cellHi proj points (prior.getD identityTransform) rx rt)
          (gridEval cellLo proj points (prior.getD identityTransform) rx rt)
          (candDist rx rt) nx ny nt).ix : ℚ) * rx by ring]
    rw [abs_mul, abs_of_pos hrx, ← Int.cast_abs, Int.abs_eq_natAbs, Int.cast_natCast]
    constructor
    · intro hnat
      rw [hnat]
    · intro heq
      exact_mod_cast mul_right_cancel₀ (ne_of_gt hrx) heq
  · rw [show (prior.getD identityTransform).y +
        ((gridBestCand useMR dsf
          (gridEval cellHi proj points (prior.getD identityTransform) rx rt)
          (gridEval cellLo proj points (prior.getD identityTransform) rx rt)
          (candDist rx rt) nx ny nt).iy : ℚ) * rx -
        (prior.getD identityTransform).y =
        ((gridBestCand useMR dsf
          (gridEval cellHi proj points (prior.getD identityTransform) rx rt)
          (gridEval cellLo proj points (prior.getD identityTransform) rx rt)
          (candDist rx rt) nx ny nt).iy : ℚ) * rx by ring]
    rw [abs_mul, abs_of_pos hrx, ← Int.cast_abs, Int.abs_eq_natAbs, Int.cast_natCast]
    constructor
    · intro hnat
      rw [hnat]
    · intro heq
      exact_mod_cast mul_right_cancel₀ (ne_of_gt hrx) heq
  · rw [show (prior.getD identityTransform).theta +
        ((gridBestCand useMR dsf
          (gridEval cellHi proj points (prior.getD identityTransform) rx rt)
          (gridEval cellLo proj points (prior.getD identityTransform) rx rt)
          (candDist rx rt) nx ny nt).it : ℚ) * rt -
        (prior.getD identityTransform).theta =
        ((gridBestCand useMR dsf
          (gridEval cellHi proj points (prior.getD identityTransform) rx rt)
          (gridEval cellLo proj points (prior.getD identityTransform) rx rt)
          (candDist rx rt) nx ny nt).it : ℚ) * rt by ring]
    rw [abs_mul, abs_of_pos hrt, ← Int.cast_abs, Int.abs_eq_natAbs, Int.cast_natCast]
    constructor
    · intro hnat
      rw [hnat]
    · intro heq
      exact_mod_cast mul_right_cancel₀ (ne_of_gt hrt) heq

/-- C5 witness: the theorem applied at a concrete scenario whose optimum
lies exactly on the x window edge, and the flag is indeed set there. -/
theorem gridMatch_saturation_witness :
    (0 : ℚ) < 1 ∧
    ((gridMatch false 1 edgeCell edgeCell shiftProj [⟨0, 0⟩] none 1 1 2 0 0).xSat = true ↔
      |(gridMatch false 1 edgeCell edgeCell shiftProj [⟨0, 0⟩] none 1 1 2 0 0).trans.x -
          (Option.getD (none : Option ScanTransform) identityTransform).x|
        = ((2 : Nat) : ℚ) * 1) ∧
    (gridMatch false 1 edgeCell edgeCell shiftProj [⟨0, 0⟩] none 1 1 2 0 0).xSat = true := by
  refine ⟨by norm_num, (gridMatch_saturation false 1 edgeCell edgeCell shiftProj [⟨0, 0⟩]
    none 1 1 2 0 0 (by norm_num) (by norm_num)).1, ?_⟩
  have hbox : candsBox (-(2 : Int)) 2 (-(0 : Int)) 0 (-(0 : Int)) 0 =
      [⟨-2, 0, 0⟩, ⟨-1, 0, 0⟩, ⟨0, 0, 0⟩, ⟨1, 0, 0⟩, ⟨2, 0, 0⟩] := by decide
  norm_num [gridMatch, gridBestCand, gridBestSingle, hbox, pickBest, betterB,
    gridEval, rasterScore, candDist, edgeCell, shiftProj, identityTransform]

/-- C1: after any sequence of scan admissions (each admission — whether it
came from `addScan` directly or from `matchSuccessive`'s admit stage —
performs the `windowAdd` update), the window size never exceeds
`maxNumScans`, and the window contents are exactly the most recently
admitted scans in chronological (insertion) order. -/
theorem addScan_window_invariant (maxN : Nat) (adm : List Scan) (st : MatcherState)
    (s : Scan) (rebuildNow : Bool) :
    (adm.foldl (windowAdd maxN) []).length ≤ maxN ∧
    adm.foldl (windowAdd maxN) [] = adm.drop (adm.length - maxN) ∧
    (addScanState st s rebuildNow).scans = windowAdd st.maxNumScans st.scans s := by
  refine ⟨?_, windowAdd_fold maxN adm, rfl⟩
  rw [windowAdd_fold maxN adm]
  simp only [List.length_drop]
  omega

theorem ascentStep_le (f : ℚ × ℚ × ℚ → ℚ) (axes : List AscAxis) (s st : ℚ)
    (p : ℚ × ℚ × ℚ) : f p ≤ f (ascentStep f axes s st p) := by
  unfold ascentStep
  cases hfind : (neighborsOf axes s st p).find? fun q => decide (f p < f q) with
  | none => simp
  | some q =>
      have hq := List.find?_some hfind
      simp only [decide_eq_true_eq] at hq
      simp only [Option.getD_some]
      exact le_of_lt hq

theorem ascentLoop_le (f : ℚ × ℚ × ℚ → ℚ) (axes : List AscAxis) (minStep : ℚ) :
    ∀ (fuel : Nat) (s st : ℚ) (p : ℚ × ℚ × ℚ),
      f p ≤ f (ascentLoop f axes minStep fuel s st p) := by
  intro fuel
  induction fuel with
  | zero =>
      intro s st p
      simp [ascentLoop]
  | succ n ih =>
      intro s st p
      simp only [ascentLoop]
      split_ifs with h1 h2
      · exact le_trans (le_of_lt h1) (ih s st _)
      · exact ih (s / 2) (st / 2) p
      · exact le_refl _

theorem gridEval_le_raw (cell : frsmPoint → ℚ) (proj : ℚ → ℚ → ℚ → frsmPoint → frsmPoint)
    (points : List frsmPoint) (c0 : ScanTransform) (rx rt : ℚ) (c : Cand) :
    gridEval cell proj points c0 rx rt c ≤
      rasterScore cell proj points (c0.x + (c.ix : ℚ) * rx) (c0.y + (c.iy : ℚ) * rx)
        (c0.theta + (c.it : ℚ) * rt) := by
  rw [gridEval_apply]
  have hpen : (0 : ℚ) ≤
      (if 1 / 10 ≤ c0.score then candDist rx rt c / (2 * c0.score ^ 2) else 0) := by
    split_ifs
    · exact div_nonneg (candDist_nonneg rx rt c) (by positivity)
    · exact le_refl 0
  linarith

/-- C3: coordinate ascent never loses score — the refined transform's
correlation score is at least the correlation score of the start pose, for
any axis set, step schedule and iteration budget; in particular, seeding
the refinement with a `gridMatch` result never yields a score strictly
below that result's (prior-adjusted) score. -/
theorem coordAscentMatch_monotone (cellHi cellLo : frsmPoint → ℚ)
    (proj : ℚ → ℚ → ℚ → frsmPoint → frsmPoint) (points : List frsmPoint)
    (axes : List AscAxis) (minStep : ℚ) (fuel : Nat) (s0 st0 : ℚ)
    (startPoint : ScanTransform) (useMR : Bool) (dsf : Nat)
    (prior : Option ScanTransform) (rx rt : ℚ) (nx ny nt : Nat) :
    (coordAscentMatch cellHi proj points axes minStep fuel s0 st0 startPoint).score =
      rasterScore cellHi proj points
        (coordAscentMatch cellHi proj points axes minStep fuel s0 st0 startPoint).x
        (coordAscentMatch cellHi proj points axes minStep fuel s0 st0 startPoint).y
        (coordAscentMatch cellHi proj points axes minStep fuel s0 st0 startPoint).theta ∧
    rasterScore cellHi proj points startPoint.x startPoint.y startPoint.theta ≤
      (coordAscentMatch cellHi proj points axes minStep fuel s0 st0 startPoint).score ∧
    (gridMatch useMR dsf cellHi cellLo proj points prior rx rt nx ny nt).trans.score ≤
      (coordAscentMatch cellHi proj points axes minStep fuel s0 st0
        (gridMatch useMR dsf cellHi cellLo proj points prior rx rt nx ny nt).trans).score := by
  refine ⟨rfl, ?_, ?_⟩
  · exact ascentLoop_le (poseScore cellHi proj points) axes minStep fuel s0 st0
      (startPoint.x, startPoint.y, startPoint.theta)
  · have h1 : (gridMatch useMR dsf cellHi cellLo proj points prior rx rt nx ny nt).trans.score ≤
        rasterScore cellHi proj points
          (gridMatch useMR dsf cellHi cellLo proj points prior rx rt nx ny nt).trans.x
          (gridMatch useMR dsf cellHi cellLo proj points prior rx rt nx ny nt).trans.y
          (gridMatch useMR dsf cellHi cellLo proj points prior rx rt nx ny nt).trans.theta := by
      simp only [gridMatch]
      exact gridEval_le_raw cellHi proj points (prior.getD identityTransform) rx rt _
    have h2 : rasterScore cellHi proj points
        (gridMatch useMR dsf cellHi cellLo proj points prior rx rt nx ny nt).trans.x
        (gridMatch useMR dsf cellHi cellLo proj points prior rx rt nx ny nt).trans.y
        (gridMatch useMR dsf cellHi cellLo proj points prior rx rt nx ny nt).trans.theta ≤
        (coordAscentMatch cellHi proj points axes minStep fuel s0 st0
          (gridMatch useMR dsf cellHi cellLo proj points prior rx rt nx ny nt).trans).score :=
      ascentLoop_le (poseScore cellHi proj points) axes minStep fuel s0 st0 _
    linarith

/-- C8: in the synchronous execution mode (`useThreads = false`),
`addScanToBeProcessed` has exactly the same effect on the matcher state as
calling `addScan` directly with an immediate rebuild: the window update,
the raster rebuild at both resolutions, and the untouched pending queue
coincide. -/
theorem addScanToBeProcessed_sync (st : MatcherState) (points : List frsmPoint)
    (T : ScanTransform) (laser_type : frsm_laser_type_t) (utime : Int)
    (h : st.useThreads = false) :
    addScanToBeProcessed st points T laser_type utime =
      addScanState st (mkScan points T laser_type utime) true ∧
    (addScanToBeProcessed st points T laser_type utime).scansToBeProcessed =
      st.scansToBeProcessed ∧
    (addScanToBeProcessed st points T laser_type utime).rlt =
      some (buildRaster (windowAdd st.maxNumScans st.scans (mkScan points T laser_type utime))
        st.metersPerPixel) := by
  unfold addScanToBeProcessed
  rw [h]
  simp [addScanState]

/-- C8 witness: the synchronous equivalence at a concrete matcher state. -/
theorem addScanToBeProcessed_sync_witness :
    (mkScanMatcher 1 1 0 false false).useThreads = false ∧
    addScanToBeProcessed (mkScanMatcher 1 1 0 false false) [] identityTransform
        .FRSM_DUMMY_LASER 0 =
      addScanState (mkScanMatcher 1 1 0 false false)
        (mkScan [] identityTransform .FRSM_DUMMY_LASER 0) true :=
  ⟨rfl, (addScanToBeProcessed_sync (mkScanMatcher 1 1 0 false false) [] identityTransform
    .FRSM_DUMMY_LASER 0 rfl).1⟩

theorem addScanToBeProcessed_pose (st : MatcherState) (points : List frsmPoint)
    (T : ScanTransform) (laser_type : frsm_laser_type_t) (utime : Int) :
    (addScanToBeProcessed st points T laser_type utime).currentPose = st.currentPose ∧
    (addScanToBeProcessed st points T laser_type utime).prevPose = st.prevPose := by
  unfold addScanToBeProcessed
  split_ifs <;> simp [addScanState]

/-- C7: `matchSuccessive` admits the matched scan into the map — via
`addScanToBeProcessed`, so into the window (synchronous mode) or the
pending queue (threaded mode) — exactly when the hit fraction is below
`addScanHitThresh` and `preventAddScan` is not set; the returned transform
is the search result and the current/previous pose pair is updated with it
whether or not the scan is admitted. -/
theorem matchSuccessive_admission (st : MatcherState)
    (rquery : Raster → frsmPoint → ℚ) (proj : ℚ → ℚ → ℚ → frsmPoint → frsmPoint)
    (points : List frsmPoint) (laser_type : frsm_laser_type_t) (utime : Int)
    (fuel : Nat) (preventAddScan : Bool) (prior : Option ScanTransform) :
    (matchSuccessive st rquery proj points laser_type utime fuel preventAddScan prior).2 =
      successiveSearch st rquery proj points prior fuel ∧
    (matchSuccessive st rquery proj points laser_type utime fuel preventAddScan
        prior).1.currentPose = successiveSearch st rquery proj points prior fuel ∧
    (matchSuccessive st rquery proj points laser_type utime fuel preventAddScan
        prior).1.prevPose = st.currentPose ∧
    (matchSuccessive st rquery proj points laser_type utime fuel preventAddScan prior).1 =
      (if hitFraction st rquery proj points
            (successiveSearch st rquery proj points prior fuel) < st.addScanHitThresh ∧
          preventAddScan = false then
        addScanToBeProcessed
          { st with
            currentPose := successiveSearch st rquery proj points prior fuel
            prevPose := st.currentPose }
          points (successiveSearch st rquery proj points prior fuel) laser_type utime
      else
        { st with
          currentPose := successiveSearch st rquery proj points prior fuel
          prevPose := st.currentPose }) := by
  have hpose := addScanToBeProcessed_pose
    { st with
      currentPose := successiveSearch st rquery proj points prior fuel
      prevPose := st.currentPose }
    points (successiveSearch st rquery proj points prior fuel) laser_type utime
  simp only [matchSuccessive]
  by_cases hadm : hitFraction st rquery proj points
      (successiveSearch st rquery proj points prior fuel) < st.addScanHitThresh ∧
      preventAddScan = false
  · rw [if_pos hadm, if_pos hadm]
    exact ⟨rfl, hpose.1, hpose.2, rfl⟩
  · rw [if_neg hadm, if_neg hadm]
    exact ⟨rfl, rfl, rfl, rfl⟩

/-- C9: the four threaded-mode operations obey the fixed lock order —
scan-list before raster whenever both are taken, pending-queue never held
alongside either — and under that discipline no set of threads can form a
circular wait: the waits-for relation admits no cycle. -/
theorem lockDiscipline_no_deadlock (threads : List ThreadSnap)
    (hconf : ∀ t ∈ threads, snapOK t) :
    (disciplineOK [] opSyncRebuild = true ∧ disciplineOK [] opMatchRead = true ∧
      disciplineOK [] opEnqueuePending = true ∧ disciplineOK [] opWorker = true) ∧
    ∀ t : ThreadSnap, ¬ Relation.TransGen (waitsFor threads) t t := by
  refine ⟨⟨by decide, by decide, by decide, by decide⟩, ?_⟩
  intro t htg
  have step : ∀ a b : ThreadSnap, waitsFor threads a b →
      lockPriority a.req < lockPriority b.req := by
    rintro a b ⟨_, hb, hmem⟩
    exact hconf b hb a.req hmem
  have mono : ∀ a b : ThreadSnap, Relation.TransGen (waitsFor threads) a b →
      lockPriority a.req < lockPriority b.req := by
    intro a b h
    induction h with
    | single h1 => exact step _ _ h1
    | tail _ h2 ih => exact lt_trans ih (step _ _ h2)
  exact absurd (mono t t htg) (lt_irrefl _)

/-- C9 witness: the theorem applied to the concrete two-thread
configuration. -/
theorem lockDiscipline_no_deadlock_witness :
    (∀ t ∈ demoThreads, snapOK t) ∧
    ¬ Relation.TransGen (waitsFor demoThreads) ⟨[.scansL], .rltL⟩ ⟨[.scansL], .rltL⟩ := by
  have h : ∀ t ∈ demoThreads, snapOK t := by decide
  exact ⟨h, (lockDiscipline_no_deadlock demoThreads h).2 ⟨[.scansL], .rltL⟩⟩

/-!
## Constructor semantics of useMultires_
-/

/-- C10: the constructor's `useMultires_` parameter has exponential
semantics — `useMultires_ = 0` leaves multi-resolution search disabled
(downsample factor `2 ^ 0 = 1`, no downsampling), and any `useMultires_ = k`
stores downsample factor `2 ^ k`, enabling multi-resolution exactly when
`k > 0`. -/
theorem mkScanMatcher_multires (mpp tr : ℚ) (k : Nat) (uth vb : Bool) :
    (mkScanMatcher mpp tr k uth vb).useMultiRes = decide (0 < k) ∧
    (mkScanMatcher mpp tr k uth vb).downsampleFactor = 2 ^ k ∧
    (mkScanMatcher mpp tr 0 uth vb).useMultiRes = false ∧
    (mkScanMatcher mpp tr 0 uth vb).downsampleFactor = 1 :=
  ⟨rfl, rfl, rfl, rfl⟩

end Frsm

